import Mathlib

/-!
# Verification of the TaskFlow service core

Shallow embedding of the core logic of the `scriptassist-nestjs-exercise`
repository (a NestJS task-management service) and proofs about it:

* `CacheService` (src/common/cache/cache.service.ts): cache-key derivation and
  domain invalidation;
* `RedisThrottlerStorage` (src/common/storage/redis-throttler.storage.ts):
  the pipelined INCR/PTTL counter, its error paths, and its windowed semantics;
* `RateLimitGuard` (src/common/guards/rate-limit.guard.ts): the fixed-window
  rate limiter with its 100-requests/60s configuration and throttle headers;
* `TasksService` (src/modules/tasks/tasks.service.ts): create/update/remove
  effects, cache keys written by `findAll`/`getStats`, and `batchProcess`;
* `TaskProcessorService` and `OverdueTasksService` (queue consumer and the
  hourly overdue scan): dispatch, retry logging, and enqueue options.

Strings from the source are modelled as Lean `String`s; comparisons that the
JavaScript runtime performs on strings (lexicographic ordering in
`Array.prototype.sort`, glob-star key patterns in Redis `KEYS`) are modelled on
the underlying character lists so that they evaluate inside the kernel.
-/

namespace TaskFlow

/-! ## Character-list string ordering

`Array.prototype.sort()` with no comparator sorts strings by comparing code
units lexicographically.  We model that order on `String.data` (its character
list); for the ASCII keys this service uses, the two orders agree. -/

/-- Lexicographic comparison of character lists (the order used by JavaScript
`Array.prototype.sort` on strings, restricted to the code points Lean chars
carry). -/
def charListLe : List Char → List Char → Bool
  | [], _ => true
  | _ :: _, [] => false
  | a :: as, b :: bs =>
    if a < b then true
    else if b < a then false
    else charListLe as bs

/-- String comparison used when sorting cache-key parameter names. -/
def strLe (a b : String) : Bool :=
  charListLe a.data b.data

/-- The propositional form of `strLe`, used as the sorting relation. -/
def strLeR (a b : String) : Prop := strLe a b = true

instance : DecidableRel strLeR := fun a b => decEq (strLe a b) true

/-! ## CacheService (src/common/cache/cache.service.ts)

A parameter record (`Record<string, any>` in the source) is modelled as an
association list of already-stringified key/value pairs; a JavaScript object
cannot hold the same key twice, which the theorems state as `Nodup` of the
key list. -/

namespace CacheService

/-- Embeds `CacheService.generateCacheKey` (cache.service.ts, lines 154-160):
`Object.keys(params).sort()` sorts the parameter names lexicographically, each
is rendered as `key:value`, the fragments are joined with `:`, and the prefix
is prepended with another `:`. -/
def generateCacheKey (pre : String) (params : List (String × String)) : String :=
  let sortedKeys := List.insertionSort strLeR (params.map Prod.fst)
  let sortedParams :=
    String.intercalate ":" (sortedKeys.map (fun k => k ++ ":" ++ ((params.lookup k).getD "")))
  pre ++ ":" ++ sortedParams

/-- Redis `KEYS` pattern matching restricted to the shapes this service passes
to `delPattern` (cache.service.ts line 145): a literal prefix followed by a
single trailing `*`, or a literal key. -/
def globStarMatches (pat key : String) : Bool :=
  match pat.data.getLast? with
  | some '*' => pat.data.dropLast.isPrefixOf key.data
  | _ => pat.data == key.data

/-- Embeds `CacheService.invalidateUserCache` (cache.service.ts, lines
144-147) as the predicate over cache keys it deletes: every key matching the
pattern `tasks:user:{userId}:*` plus the key `tasks:stats:{userId}`. -/
def invalidateUserCacheDeletes (userId key : String) : Bool :=
  globStarMatches ("tasks:user:" ++ userId ++ ":*") key ||
  key == "tasks:stats:" ++ userId

/-- Embeds `CacheService.invalidateTaskCache` (cache.service.ts, lines
149-152): deletes `tasks:{taskId}` and then everything
`invalidateUserCache` deletes. -/
def invalidateTaskCacheDeletes (taskId userId key : String) : Bool :=
  key == "tasks:" ++ taskId || invalidateUserCacheDeletes userId key

end CacheService

/-! ## Cache keys actually written by TasksService reads
(src/modules/tasks/tasks.service.ts) -/

namespace TasksService

/-- Embeds the cache key built by `TasksService.findAll` (tasks.service.ts,
lines 52-61): prefix `tasks:list` with the page, limit, status and priority
filters; absent status/priority filters render as `'all'`. -/
def findAllCacheKey (page limit : Nat) (status priority : Option String) : String :=
  CacheService.generateCacheKey "tasks:list"
    [("page", toString page), ("limit", toString limit),
     ("status", status.getD "all"), ("priority", priority.getD "all")]

/-- The cache key written by `TasksService.getStats` (tasks.service.ts,
line 178). -/
def statsCacheKey : String := "tasks:stats"

/-- The cache key written by `TasksService.findOne` (tasks.service.ts,
line 108). -/
def findOneCacheKey (id : String) : String := "tasks:" ++ id

end TasksService

/-! ## RedisThrottlerStorage (src/common/storage/redis-throttler.storage.ts)

Three views of `increment`, each tied to a different claim:

* a serialization model of the Redis commands it issues, for the concurrency
  claim (Redis executes every individual command atomically, so concurrent
  `INCR`s on one key serialize);
* a windowed-counter model over a clock, for the fixed-window behaviour the
  guard builds on;
* an error-path model over the outcome of `pipeline.exec()`. -/

namespace RedisThrottlerStorage

/-- The two Redis commands queued by `increment` (redis-throttler.storage.ts,
lines 43-45). -/
inductive RedisCmd
  | incr
  | pttl
deriving DecidableEq

/-- Per-key serialization of the commands issued by concurrent `increment`
calls.  An entry `(caller, cmd)` of the schedule is one atomically executed
Redis command; the schedule is an arbitrary interleaving of the callers'
`INCR`/`PTTL` pairs (lines 43-47).  `INCR` replies with the incremented
count, `PTTL` with the key's current ttl (`ttlv`, which no command here
changes).  Returns each command's reply in execution order. -/
def runCmds (sched : List (Nat × RedisCmd)) (count : Nat) (ttlv : Int) :
    List (Nat × RedisCmd × Int) :=
  match sched with
  | [] => []
  | (c, .incr) :: rest => (c, .incr, ((count + 1 : Nat) : Int)) :: runCmds rest (count + 1) ttlv
  | (c, .pttl) :: rest => (c, .pttl, ttlv) :: runCmds rest count ttlv

/-- The `totalHits` values (`results[0][1]`, line 53) the concurrent callers
observe: the replies of the `INCR` commands, in execution order. -/
def incrReplies (sched : List (Nat × RedisCmd)) (ttlv : Int) : List Int :=
  (runCmds sched 0 ttlv).filterMap
    (fun r => if r.2.1 = RedisCmd.incr then some r.2.2 else none)

/-- A live Redis rate-limit key: its counter and its absolute expiry time in
milliseconds.  Redis deletes the key once the clock passes `expiresAt`. -/
structure WindowState where
  count : Nat
  expiresAt : Int
deriving DecidableEq

/-- Embeds `RedisThrottlerStorage.increment` (redis-throttler.storage.ts,
lines 39-66) over a clock `t`: `INCR` on an absent or expired key creates it
at 1 with no expiry, in which case `PTTL` reads `-1` and the follow-up
`PEXPIRE` (lines 56-60) stamps `t + ttl`; on a live key it increments the
counter, and `PTTL` reads the remaining window.  Returns
`((totalHits, timeToExpire), new key state)`; line 64 clamps `timeToExpire`
at 0. -/
def incrementAt (t ttl : Int) (s : Option WindowState) : (Nat × Int) × WindowState :=
  match s with
  | some w =>
    if t < w.expiresAt then
      ((w.count + 1, max (w.expiresAt - t) 0), ⟨w.count + 1, w.expiresAt⟩)
    else
      ((1, max ttl 0), ⟨1, t + ttl⟩)
  | none => ((1, max ttl 0), ⟨1, t + ttl⟩)

/-- One entry of the array resolved by `pipeline.exec()`: ioredis yields an
`[error, value]` pair per queued command.  `value` is absent when the command
errored. -/
structure ExecReply where
  err : Option String
  value : Option Int
deriving DecidableEq

/-- The possible outcomes of `await pipeline.exec()` for the two queued
commands: the promise rejects (connection-level failure, re-thrown by
`await`), it resolves to `null` (line 49), or it resolves to the two
per-command replies. -/
inductive ExecOutcome
  | rejected (msg : String)
  | nullResults
  | ok (r0 r1 : ExecReply)
deriving DecidableEq

/-- The value `increment` resolves with (lines 62-65). -/
structure IncrementResult where
  totalHits : Option Int
  timeToExpire : Option Int
deriving DecidableEq

/-- Embeds the error handling of `RedisThrottlerStorage.increment`
(redis-throttler.storage.ts, lines 39-66) as a function of the
`pipeline.exec()` outcome and of the follow-up `PEXPIRE`'s outcome: a
rejected exec propagates; a `null` result raises `Redis pipeline failed`
(lines 49-51); otherwise lines 53-54 read `results[0][1]` and
`results[1][1]` — the per-command `err` fields at index `[..][0]` are never
inspected — and line 57 triggers `PEXPIRE` only when `PTTL` returned exactly
`-1`.  An absent value (`undefined` in JavaScript, from an errored command)
is modelled as `none`; `Math.max(undefined, 0)` is `NaN`, also `none`. -/
def incrementExec (ttl : Int) (exec : ExecOutcome)
    (pexpireResult : Except String Unit) : Except String IncrementResult :=
  match exec with
  | .rejected msg => .error msg
  | .nullResults => .error "Redis pipeline failed"
  | .ok r0 r1 =>
    if r1.value = some (-1) then
      match pexpireResult with
      | .error e => .error e
      | .ok _ => .ok ⟨r0.value, some (max ttl 0)⟩
    else
      .ok ⟨r0.value, r1.value.map (fun v => max v 0)⟩

end RedisThrottlerStorage

/-! ## RateLimitGuard (src/common/guards/rate-limit.guard.ts) -/

namespace RateLimitGuard

/-- The guard's configured limit (rate-limit.guard.ts, line 22). -/
def limit : Nat := 100

/-- The guard's configured window in milliseconds (rate-limit.guard.ts,
line 21). -/
def ttlMs : Int := 60000

/-- The headers set by `RateLimitGuard.throwThrottlingException`
(rate-limit.guard.ts, lines 52-54). -/
def throttledHeaders : List (String × String) :=
  [("X-RateLimit-Limit", "100"), ("X-RateLimit-Remaining", "0"),
   ("Retry-After", "60")]

/-- The guard's decision on one request: pass it through (reporting the
counter value the storage returned) or reject it with the throttle headers. -/
inductive Outcome
  | allowed (totalHits : Nat)
  | throttled (headers : List (String × String))
deriving DecidableEq

/-- Modelled from the spec: the `@nestjs/throttler` `ThrottlerGuard` request
loop is library code, not part of this repository.  Per the spec (§4.3), the
guard calls the storage's atomic increment for the request's identity and
rejects once the returned count exceeds the configured limit, attaching the
limit/remaining/retry headers; the configuration (`ttl: 60000, limit: 100`,
rate-limit.guard.ts lines 17-27) and the headers (lines 47-58) are from the
source. -/
def handleRequest (t : Int) (s : Option RedisThrottlerStorage.WindowState) :
    Outcome × RedisThrottlerStorage.WindowState :=
  let r := RedisThrottlerStorage.incrementAt t ttlMs s
  (if limit < r.1.1 then .throttled throttledHeaders else .allowed r.1.1, r.2)

/-- A sequence of requests from one identity, threaded through the shared
rate-limit key. -/
def processAll (ts : List Int) (s : Option RedisThrottlerStorage.WindowState) :
    List Outcome × Option RedisThrottlerStorage.WindowState :=
  match ts with
  | [] => ([], s)
  | t :: rest =>
    let r := handleRequest t s
    let next := processAll rest (some r.2)
    (r.1 :: next.1, next.2)

/-- The guard's decision as a function of the counter value it observed. -/
def outcomeFor (n : Nat) : Outcome :=
  if limit < n then .throttled throttledHeaders else .allowed n

end RateLimitGuard

/-! ## Task data model (src/modules/tasks)

The `TaskStatus`/`TaskPriority` enums are string-valued in the source (the
consumer assigns a raw payload string to `task.status` with no validation,
and `getStats` compares `stat.priority === 'HIGH'`), so statuses and
priorities are modelled as strings with named constants. -/

namespace TaskStatus

def PENDING : String := "PENDING"

def IN_PROGRESS : String := "IN_PROGRESS"

def COMPLETED : String := "COMPLETED"

end TaskStatus

/-- A row of the `tasks` table, with the columns the service logic touches. -/
structure Task where
  id : String
  title : String
  description : String
  status : String
  priority : String
  dueDate : Int
  userId : String
deriving DecidableEq

namespace TasksService

/-- The cache invalidation calls a mutation issues (tasks.service.ts lines
47, 150, 160 and 292-294). -/
inductive CacheInvalidation
  | user (userId : String)
  | taskAndUser (taskId userId : String)
deriving DecidableEq

/-- The observable effects of one mutation: the datastore afterwards, the
`task-status-update` jobs enqueued on the `task-processing` queue (payload
`{taskId, status}`), and the cache invalidations issued. -/
structure MutationEffects where
  db : List Task
  jobs : List (String × String)
  invalidations : List CacheInvalidation
deriving DecidableEq

structure CreateTaskDto where
  title : String
  description : String
  status : String
  priority : String
  dueDate : Int
  userId : String
deriving DecidableEq

/-- Fields of `UpdateTaskDto`; `none` models an absent (or, by JavaScript
truthiness, empty/falsy) field, which `update` leaves untouched. -/
structure UpdateTaskDto where
  title : Option String
  description : Option String
  status : Option String
  priority : Option String
  dueDate : Option Int
deriving DecidableEq

/-- `repository.save` of an entity loaded from the table: replaces the row
with the entity's id. -/
def save (t : Task) (db : List Task) : List Task :=
  db.map (fun u => if u.id == t.id then t else u)

/-- Embeds `TasksService.create` (tasks.service.ts, lines 29-50): reject if
the user does not exist, save the new task (`newId` is the id the datastore
assigns), enqueue a `task-status-update` job for it, and invalidate the
user's cache. -/
def create (users : List String) (newId : String) (dto : CreateTaskDto)
    (db : List Task) : Except String MutationEffects :=
  if users.contains dto.userId then
    let savedTask : Task :=
      ⟨newId, dto.title, dto.description, dto.status, dto.priority,
        dto.dueDate, dto.userId⟩
    .ok ⟨db ++ [savedTask], [(newId, dto.status)], [.user dto.userId]⟩
  else
    .error ("User with ID " ++ dto.userId ++ " not found")

/-- The field updates `update` applies (tasks.service.ts, lines 134-138):
each present dto field overwrites the loaded task's field. -/
def applyUpdate (dto : UpdateTaskDto) (t : Task) : Task :=
  { t with
    title := dto.title.getD t.title
    description := dto.description.getD t.description
    status := dto.status.getD t.status
    priority := dto.priority.getD t.priority
    dueDate := dto.dueDate.getD t.dueDate }

/-- Embeds `TasksService.update` (tasks.service.ts, lines 129-153): load the
task (404 if absent), apply the dto, save, enqueue a `task-status-update`
job only when the status actually changed (line 142), and invalidate the
task's and owner's cache keys. -/
def update (id : String) (dto : UpdateTaskDto) (db : List Task) :
    Except String MutationEffects :=
  match db.find? (fun t => t.id == id) with
  | none => .error ("Task with ID " ++ id ++ " not found")
  | some task =>
    let updatedTask := applyUpdate dto task
    .ok ⟨save updatedTask db,
      if task.status == updatedTask.status then []
      else [(updatedTask.id, updatedTask.status)],
      [.taskAndUser id task.userId]⟩

/-- Embeds `TasksService.remove` (tasks.service.ts, lines 155-161): load the
task (404 if absent), delete it, and invalidate the task's and owner's cache
keys.  No job is enqueued. -/
def remove (id : String) (db : List Task) : Except String MutationEffects :=
  match db.find? (fun t => t.id == id) with
  | none => .error ("Task with ID " ++ id ++ " not found")
  | some task =>
    .ok ⟨db.filter (fun t => !(t.id == id)), [], [.taskAndUser id task.userId]⟩

/-! ### Batch processing (tasks.service.ts, lines 233-303) -/

inductive BatchAction
  | complete
  | delete
deriving DecidableEq

/-- One entry of the per-item `results` array (lines 277-288); the per-item
`result` payload is not modelled, only the fields the summary and the error
reports use. -/
structure ItemResult where
  taskId : String
  success : Bool
  error : Option String
deriving DecidableEq

/-- The summary `batchProcess` returns (lines 296-301). -/
structure BatchSummary where
  processed : Nat
  successful : Nat
  failed : Nat
  results : List ItemResult
deriving DecidableEq

/-- The state threaded through the per-id loop (lines 238-289): the
datastore inside the transaction, the enqueued jobs, the accumulated
results, and the de-duplicated affected user ids. -/
structure BatchState where
  db : List Task
  jobs : List (String × String)
  results : List ItemResult
  userIds : List String
deriving DecidableEq

/-- `Set.add` on an insertion-ordered unique list. -/
def addUserId (ids : List String) (u : String) : List String :=
  if ids.contains u then ids else ids ++ [u]

/-- The not-found error recorded for an absent id (lines 252/269 via the
catch at 282-288). -/
def notFoundResult (taskId : String) : ItemResult :=
  ⟨taskId, false, some ("Task with ID " ++ taskId ++ " not found")⟩

/-- One iteration of the `batchProcess` loop (lines 241-289): look the task
up in the transaction scope; an absent task throws `NotFoundException`,
which the catch converts into a failure record without touching the state.
COMPLETE saves the task with status `COMPLETED` and enqueues a
`task-status-update` job; DELETE removes the task. -/
def batchStep (action : BatchAction) (st : BatchState) (taskId : String) :
    BatchState :=
  match action with
  | .complete =>
    match st.db.find? (fun t => t.id == taskId) with
    | none => { st with results := st.results ++ [notFoundResult taskId] }
    | some task =>
      let t' := { task with status := TaskStatus.COMPLETED }
      { db := save t' st.db
        jobs := st.jobs ++ [(task.id, TaskStatus.COMPLETED)]
        results := st.results ++ [⟨taskId, true, none⟩]
        userIds := addUserId st.userIds task.userId }
  | .delete =>
    match st.db.find? (fun t => t.id == taskId) with
    | none => { st with results := st.results ++ [notFoundResult taskId] }
    | some task =>
      { db := st.db.filter (fun t => !(t.id == taskId))
        jobs := st.jobs
        results := st.results ++ [⟨taskId, true, none⟩]
        userIds := addUserId st.userIds task.userId }

/-- Embeds `TasksService.batchProcess` (tasks.service.ts, lines 233-303):
fold the per-id step over the submitted ids and report
`processed = taskIds.length`, `successful`/`failed` as the counts of
success/failure records, plus the records themselves. -/
def batchProcess (taskIds : List String) (action : BatchAction)
    (db : List Task) : BatchSummary × BatchState :=
  let final := taskIds.foldl (batchStep action) ⟨db, [], [], []⟩
  (⟨taskIds.length,
    (final.results.filter (fun r => r.success)).length,
    (final.results.filter (fun r => !r.success)).length,
    final.results⟩, final)

/-- Concrete task fixtures for the spec's batch example (`ids [A, B, C]`
with `B` absent). -/
def taskA : Task :=
  ⟨"A", "Task A", "", TaskStatus.PENDING, "MEDIUM", 0, "u1"⟩

def taskC : Task :=
  ⟨"C", "Task C", "", TaskStatus.PENDING, "MEDIUM", 0, "u2"⟩

/-- A datastore holding tasks `A` and `C` but not `B`. -/
def exampleDb : List Task := [taskA, taskC]

end TasksService

/-- Embeds `TasksService.updateStatus` (tasks.service.ts, lines 169-174):
load the task via `findOne` (404 if absent) and save it with the given raw
status string — no validation of the status value.  Returns the saved task
and the datastore afterwards. -/
def TasksService.updateStatus (id status : String) (db : List Task) :
    Except String (Task × List Task) :=
  match db.find? (fun t => t.id == id) with
  | none => .error ("Task with ID " ++ id ++ " not found")
  | some task =>
    let t' := { task with status := status }
    .ok (t', TasksService.save t' db)

/-! ## TaskProcessorService (src/queues/task-processor, `src/unnamed/part_000`
lines 1-95) and the queue's retry contract -/

namespace TaskProcessorService

/-- The object a handler resolves with (part_000 lines 31, 72, 80-84, 93);
absent fields are `none`. -/
structure ProcResult where
  success : Bool
  error : Option String
  taskId : Option String
  newStatus : Option String
  message : Option String
deriving DecidableEq

/-- JavaScript truthiness of the payload fields tested by
`if (!taskId || !status)` (part_000 line 71): absent and empty strings are
falsy. -/
def isFalsy : Option String → Bool
  | none => true
  | some s => s.data.isEmpty

/-- A record of one `tasksService.updateStatus` invocation, to observe
whether the consumer touched the datastore. -/
structure StatusUpdateCall where
  id : String
  status : String
deriving DecidableEq

/-- Embeds `TaskProcessorService.handleStatusUpdate` (part_000, lines
68-85): missing `taskId` or `status` returns
`{ success: false, error: 'Missing required data' }` without throwing and
without calling `updateStatus`; otherwise it delegates to
`TasksService.updateStatus` (whose `NotFoundException` propagates) and
reports the new status. -/
def handleStatusUpdate (taskId status : Option String) (db : List Task) :
    Except String (ProcResult × List Task × List StatusUpdateCall) :=
  if isFalsy taskId || isFalsy status then
    .ok (⟨false, some "Missing required data", none, none, none⟩, db, [])
  else
    match TasksService.updateStatus (taskId.getD "") (status.getD "") db with
    | .error e => .error e
    | .ok (t, db') =>
      .ok (⟨true, none, some t.id, some t.status, none⟩, db',
        [⟨taskId.getD "", status.getD ""⟩])

/-- An incoming job as the consumer sees it: its name and the payload
fields the handlers read. -/
structure JobIn where
  name : String
  taskId : Option String
  status : Option String
deriving DecidableEq

/-- The `switch (job.name)` dispatch of `TaskProcessorService.process`
(part_000, lines 22-32): `task-status-update` and
`overdue-tasks-notification` go to their handlers; an unknown name returns a
non-fatal `{ success: false, error: 'Unknown job type' }`. -/
def dispatch (j : JobIn) (db : List Task) :
    Except String (ProcResult × List Task × List StatusUpdateCall) :=
  if j.name == "task-status-update" then
    handleStatusUpdate j.taskId j.status db
  else if j.name == "overdue-tasks-notification" then
    .ok (⟨true, none, none, none, some "Overdue tasks processed"⟩, db, [])
  else
    .ok (⟨false, some "Unknown job type", none, none, none⟩, db, [])

/-- `job.opts.attempts || 1` (part_000, lines 16 and 42): an absent — or,
by JavaScript truthiness, zero — attempts option counts as 1. -/
def effectiveAttempts : Option Nat → Nat
  | none => 1
  | some 0 => 1
  | some (n + 1) => n + 1

/-- The log lines `process` emits, with the numbers they carry (part_000
lines 17, 34, 39, 44, 46). -/
inductive LogEntry
  | processing (attemptNumber totalAttempts : Nat)
  | succeeded (attemptNumber totalAttempts : Nat)
  | errored (attemptNumber totalAttempts : Nat) (msg : String)
  | willRetry (attemptsLeft : Int)
  | exhausted
deriving DecidableEq

/-- Embeds `TaskProcessorService.process` (part_000, lines 15-51) around one
dispatch outcome `r`: it logs the attempt as
`attempt ${attemptsMade+1}/${opts.attempts || 1}`; a successful handler's
result is returned; on a thrown error it computes
`attemptsLeft = (opts.attempts || 1) - (attemptsMade + 1)`, logs either the
retry (with `attemptsLeft`) or the exhaustion, and re-throws the error so
the queue can retry.  (The early return of the unknown-job-type branch
skips the success log in the source; no claim depends on that log line.) -/
def processWithLogs (r : Except String ProcResult) (attempts : Option Nat)
    (attemptsMade : Nat) : Except String ProcResult × List LogEntry :=
  let eff := effectiveAttempts attempts
  match r with
  | .ok v =>
    (.ok v, [.processing (attemptsMade + 1) eff, .succeeded (attemptsMade + 1) eff])
  | .error e =>
    let left : Int := (eff : Int) - (attemptsMade + 1)
    (.error e,
      [.processing (attemptsMade + 1) eff, .errored (attemptsMade + 1) eff e] ++
        (if 0 < left then [.willRetry left] else [.exhausted]))

/-- A job's terminal state with the number of attempts that actually ran. -/
inductive JobFinal
  | completed (attempts : Nat)
  | failedTerminal (attempts : Nat)
deriving DecidableEq

def JobFinal.attemptCount : JobFinal → Nat
  | .completed n => n
  | .failedTerminal n => n

/-- Modelled from the spec: BullMQ's retry machinery is library code, not
part of this repository.  Per the spec (§4.4 and its job state machine), a
picked-up job runs the consumer's `process` (here `processWithLogs` around
the handler's outcome `h attemptsMade`); a normal return completes the job
terminally, a thrown error consumes one attempt and the job is re-queued
only while attempts remain, and once attempts are exhausted it is
terminally failed and never attempted again.  `left` is the number of
attempts still allowed; the logs of all attempts are concatenated. -/
def runAttempts (h : Nat → Except String ProcResult) (attempts : Option Nat)
    (made left : Nat) : JobFinal × List LogEntry :=
  match left with
  | 0 => (.failedTerminal made, [])
  | l + 1 =>
    let r := processWithLogs (h made) attempts made
    match r.1 with
    | .ok _ => (.completed (made + 1), r.2)
    | .error _ =>
      let next := runAttempts h attempts (made + 1) l
      (next.1, r.2 ++ next.2)

/-- Modelled from the spec: a freshly enqueued job with `maxAttempts` from
its options runs until terminal. -/
def runJob (h : Nat → Except String ProcResult) (attempts : Option Nat) :
    JobFinal × List LogEntry :=
  runAttempts h attempts 0 (effectiveAttempts attempts)

end TaskProcessorService

/-! ## OverdueTasksService (src/queues/scheduled-tasks, `src/unnamed/part_000`
lines 95-173) -/

namespace OverdueTasksService

/-- The enqueue options passed to `taskQueue.add` for every notification job
(part_000, lines 147-159). -/
structure JobOptions where
  attempts : Nat
  backoffType : String
  backoffDelay : Nat
  removeOnCompleteAge : Nat
  removeOnFailAge : Nat
deriving DecidableEq

/-- `attempts: 3, backoff: {type: exponential, delay: 2000},
removeOnComplete: {age: 3600}, removeOnFail: {age: 86400}`. -/
def overdueJobOptions : JobOptions := ⟨3, "exponential", 2000, 3600, 86400⟩

/-- One `overdue-tasks-notification` job with its payload (part_000, lines
139-146) and options. -/
structure NotificationJob where
  name : String
  taskId : String
  userId : String
  title : String
  dueDate : Int
  opts : JobOptions
deriving DecidableEq

def mkNotificationJob (t : Task) : NotificationJob :=
  ⟨"overdue-tasks-notification", t.id, t.userId, t.title, t.dueDate,
    overdueJobOptions⟩

/-- The repository query of the scan (part_000, lines 120-125):
`dueDate < now AND status = PENDING`. -/
def isOverduePending (now : Int) (t : Task) : Bool :=
  decide (t.dueDate < now) && (t.status == TaskStatus.PENDING)

/-- What one scan run produced: the jobs enqueued, the success/failure
counters, the logged found-count (line 127), and the final
`Queued X successfully, Y failed` log (lines 169-171), absent when the scan
returned early because nothing was overdue (lines 129-132). -/
structure ScanRun where
  enqueued : List NotificationJob
  successCount : Nat
  failureCount : Nat
  loggedFound : Nat
  finalLog : Option (Nat × Nat)
deriving DecidableEq

/-- One iteration of the enqueue loop (part_000, lines 137-167): a rejected
`taskQueue.add` is caught, logged and counted as a failure, and the loop
continues with the next record. -/
def enqueueStep (enqueueFails : String → Bool)
    (acc : List NotificationJob × Nat × Nat) (t : Task) :
    List NotificationJob × Nat × Nat :=
  if enqueueFails t.id then (acc.1, acc.2.1, acc.2.2 + 1)
  else (acc.1 ++ [mkNotificationJob t], acc.2.1 + 1, acc.2.2)

/-- Embeds `OverdueTasksService.checkOverdueTasks` (part_000, lines
115-172): query the overdue pending tasks, return early when there are
none, otherwise enqueue one notification job per record (failures isolated
per record via `enqueueFails`) and log the found count and the final
success/failure counts. -/
def checkOverdueTasks (now : Int) (db : List Task)
    (enqueueFails : String → Bool) : ScanRun :=
  let overdueTasks := db.filter (isOverduePending now)
  if overdueTasks.isEmpty then
    ⟨[], 0, 0, overdueTasks.length, none⟩
  else
    let r := overdueTasks.foldl (enqueueStep enqueueFails) ([], 0, 0)
    ⟨r.1, r.2.1, r.2.2, overdueTasks.length, some (r.2.1, r.2.2)⟩

end OverdueTasksService

/-! ### String-order lemmas -/

theorem charListLe_total (x y : List Char) :
    charListLe x y = true ∨ charListLe y x = true := by
  induction x generalizing y with
  | nil => left; rfl
  | cons a as ih =>
    cases y with
    | nil => right; rfl
    | cons b bs =>
      rcases lt_trichotomy a b with h | h | h
      · left; simp [charListLe, h]
      · subst h
        rcases ih bs with h' | h'
        · left; simp [charListLe, lt_irrefl, h']
        · right; simp [charListLe, lt_irrefl, h']
      · right; simp [charListLe, h]

theorem charListLe_trans {x y z : List Char}
    (hxy : charListLe x y = true) (hyz : charListLe y z = true) :
    charListLe x z = true := by
  induction x generalizing y z with
  | nil => rfl
  | cons a as ih =>
    cases y with
    | nil => simp [charListLe] at hxy
    | cons b bs =>
      cases z with
      | nil => simp [charListLe] at hyz
      | cons c cs =>
        rcases lt_trichotomy a b with hab | hab | hab
        · rcases lt_trichotomy b c with hbc | hbc | hbc
          · simp [charListLe, lt_trans hab hbc]
          · subst hbc; simp [charListLe, hab]
          · simp [charListLe, hbc, asymm hbc] at hyz
        · subst hab
          rcases lt_trichotomy a c with hac | hac | hac
          · simp [charListLe, hac]
          · subst hac
            simp only [charListLe, lt_irrefl, if_false] at hxy hyz ⊢
            exact ih hxy hyz
          · simp [charListLe, hac, asymm hac] at hyz
        · simp [charListLe, hab, asymm hab] at hxy

theorem charListLe_antisymm {x y : List Char}
    (hxy : charListLe x y = true) (hyx : charListLe y x = true) : x = y := by
  induction x generalizing y with
  | nil =>
    cases y with
    | nil => rfl
    | cons b bs => simp [charListLe] at hyx
  | cons a as ih =>
    cases y with
    | nil => simp [charListLe] at hxy
    | cons b bs =>
      rcases lt_trichotomy a b with hab | hab | hab
      · simp [charListLe, hab, asymm hab] at hyx
      · subst hab
        simp only [charListLe, lt_irrefl, if_false] at hxy hyx
        exact congrArg _ (ih hxy hyx)
      · simp [charListLe, hab, asymm hab] at hxy

/-! ### Lemmas about key canonicalization -/

theorem lookup_eq_of_perm {l₁ l₂ : List (String × String)} (p : l₁.Perm l₂) :
    (l₁.map Prod.fst).Nodup → ∀ k, l₁.lookup k = l₂.lookup k := by
  induction p with
  | nil => intro _ k; rfl
  | cons x _ ih =>
    intro nd k
    obtain ⟨kx, vx⟩ := x
    simp only [List.map_cons, List.nodup_cons] at nd
    simp only [List.lookup]
    cases h : k == kx
    · exact ih nd.2 k
    · rfl
  | swap x y l =>
    intro nd k
    obtain ⟨kx, vx⟩ := x
    obtain ⟨ky, vy⟩ := y
    simp only [List.map_cons, List.nodup_cons, List.mem_cons] at nd
    have hne : ky ≠ kx := fun h => nd.1 (Or.inl h)
    cases hy : k == ky <;> cases hx : k == kx <;>
      simp only [List.lookup, hy, hx]
    exact absurd ((eq_of_beq hy).symm.trans (eq_of_beq hx)) hne
  | trans p₁ p₂ ih₁ ih₂ =>
    intro nd k
    have nd₂ := ((p₁.map Prod.fst).nodup_iff).mp nd
    exact (ih₁ nd k).trans (ih₂ nd₂ k)

theorem insertionSort_keys_eq {l₁ l₂ : List (String × String)} (p : l₁.Perm l₂) :
    List.insertionSort strLeR (l₁.map Prod.fst) =
      List.insertionSort strLeR (l₂.map Prod.fst) := by
  haveI : IsTotal String strLeR := ⟨fun a b => charListLe_total a.data b.data⟩
  haveI : IsTrans String strLeR := ⟨fun _ _ _ h h' => charListLe_trans h h'⟩
  haveI : IsAntisymm String strLeR :=
    ⟨fun a b h h' => by
      cases a; cases b
      exact congrArg _ (charListLe_antisymm h h')⟩
  exact List.eq_of_perm_of_sorted
    (((List.perm_insertionSort _ _).trans (p.map _)).trans
      (List.perm_insertionSort _ _).symm)
    (List.sorted_insertionSort _ _) (List.sorted_insertionSort _ _)

/-- C9: for every prefix and every parameter mapping, the derived cache key is
independent of the order in which the parameters are supplied: for any two
parameter lists containing the same key-value pairs (a JavaScript object's
keys are necessarily distinct), `generateCacheKey` produces the identical key
string, because keys are sorted lexicographically before joining. -/
theorem C9_generateCacheKey_order_independent
    (pre : String) (l₁ l₂ : List (String × String))
    (nd : (l₁.map Prod.fst).Nodup) (p : l₁.Perm l₂) :
    CacheService.generateCacheKey pre l₁ = CacheService.generateCacheKey pre l₂ := by
  have h : ∀ k ∈ List.insertionSort strLeR (l₂.map Prod.fst),
      k ++ ":" ++ ((l₁.lookup k).getD "") = k ++ ":" ++ ((l₂.lookup k).getD "") := by
    intro k _
    rw [lookup_eq_of_perm p nd k]
  simp only [CacheService.generateCacheKey]
  rw [insertionSort_keys_eq p, List.map_congr_left h]

/-- C9 witness: the spec's own example, `deriveKey("tasks:list", {status:"x",
page:1})` equals `deriveKey("tasks:list", {page:1, status:"x"})`. -/
theorem C9_generateCacheKey_order_independent_witness :
    CacheService.generateCacheKey "tasks:list" [("status", "x"), ("page", "1")] =
      CacheService.generateCacheKey "tasks:list" [("page", "1"), ("status", "x")] :=
  C9_generateCacheKey_order_independent "tasks:list" _ _ (by decide)
    (List.Perm.swap _ _ _)

/-- C3: a task mutation's cache invalidation
(`invalidateTaskCache`/`invalidateUserCache`) does NOT delete the keys the
read paths actually write.  Evaluated at a task `t1` owned by user `u1`: the
key written by `findAll` with default filters
(`tasks:list:limit:10:page:1:priority:all:status:all`) is not deleted, the key
written by `getStats` (`tasks:stats`) is not deleted, and only the single-task
key `tasks:t1` is.  The invalidation patterns `tasks:user:u1:*` and
`tasks:stats:u1` match no key any read path writes, contradicting the claim. -/
theorem C3_invalidation_misses_written_keys :
    CacheService.invalidateTaskCacheDeletes "t1" "u1"
        (TasksService.findAllCacheKey 1 10 none none) = false ∧
      CacheService.invalidateTaskCacheDeletes "t1" "u1"
        TasksService.statsCacheKey = false ∧
      CacheService.invalidateTaskCacheDeletes "t1" "u1"
        (TasksService.findOneCacheKey "t1") = true ∧
      TasksService.findAllCacheKey 1 10 none none =
        "tasks:list:limit:10:page:1:priority:all:status:all" := by
  decide

namespace RedisThrottlerStorage

theorem runCmds_incr_replies (sched : List (Nat × RedisCmd)) (count : Nat) (ttlv : Int) :
    (runCmds sched count ttlv).filterMap
        (fun r => if r.2.1 = RedisCmd.incr then some r.2.2 else none) =
      (List.range' (count + 1) (sched.countP (fun e => e.2 == RedisCmd.incr))).map Int.ofNat := by
  induction sched generalizing count with
  | nil => rfl
  | cons e rest ih =>
    obtain ⟨c, cmd⟩ := e
    cases cmd with
    | incr =>
      simp only [runCmds, List.filterMap_cons, List.countP_cons, if_pos rfl]
      simp [List.range'_succ, ih (count + 1)]
    | pttl =>
      have : (RedisCmd.pttl == RedisCmd.incr) = false := by decide
      simp only [runCmds, List.filterMap_cons, List.countP_cons, this]
      simp only [reduceIte, ih count]
      rfl

/-- C1: for every key and every set of `M` concurrent `increment` calls on
that key, the `M` calls observe `M` distinct, sequential counter values with
no duplicates and no lost increments.  Every interleaving `sched` of the
callers' INCR/PTTL command pairs containing `M` `INCR`s yields the replies
`1, 2, …, M` in execution order — pairwise distinct, one per call, ending at
`M` — because the key's counter serializes the atomically executed `INCR`s;
the interleaved `PTTL` reads never change it. -/
theorem C1_concurrent_increments_sequential
    (sched : List (Nat × RedisCmd)) (M : Nat) (ttlv : Int)
    (hM : sched.countP (fun e => e.2 == RedisCmd.incr) = M) :
    incrReplies sched ttlv = (List.range' 1 M).map Int.ofNat ∧
      (incrReplies sched ttlv).Nodup ∧
      (incrReplies sched ttlv).length = M := by
  have h : incrReplies sched ttlv = (List.range' 1 M).map Int.ofNat := by
    unfold incrReplies
    rw [runCmds_incr_replies, hM]
  refine ⟨h, ?_, ?_⟩
  · rw [h]
    refine List.Nodup.map ?_ (List.nodup_range' 1 M)
    intro a b hab
    exact Int.ofNat.inj hab
  · rw [h, List.length_map, List.length_range']

/-- C1 witness: three callers 0, 1, 2 whose INCR/PTTL pairs interleave
arbitrarily still read counts `1, 2, 3`. -/
theorem C1_concurrent_increments_sequential_witness :
    incrReplies
        [(0, .incr), (1, .incr), (0, .pttl), (2, .incr), (1, .pttl), (2, .pttl)]
        60000 =
      (List.range' 1 3).map Int.ofNat ∧
      (incrReplies
        [(0, .incr), (1, .incr), (0, .pttl), (2, .incr), (1, .pttl), (2, .pttl)]
        60000).Nodup ∧
      (incrReplies
        [(0, .incr), (1, .incr), (0, .pttl), (2, .incr), (1, .pttl), (2, .pttl)]
        60000).length = 3 :=
  C1_concurrent_increments_sequential _ 3 60000 (by decide)

/-- C7 counterexample: the claim says any erroring sub-command makes the call
raise; but when `exec` resolves with an errored `INCR` reply
(`[error, undefined]`), `increment` returns normally, with the absent value
as the count — the error field is never checked. -/
theorem C7_subcommand_error_swallowed :
    incrementExec 60000
        (.ok ⟨some "READONLY You cannot write against a read only replica.", none⟩
          ⟨some "READONLY You cannot write against a read only replica.", none⟩)
        (.ok ()) =
      .ok ⟨none, none⟩ ∧
      (incrementExec 60000
          (.ok ⟨some "READONLY You cannot write against a read only replica.", none⟩
            ⟨some "READONLY You cannot write against a read only replica.", none⟩)
          (.ok ())).isOk = true :=
  ⟨rfl, rfl⟩

/-- C7 amended: a failure of the pipeline execution itself is raised — a
rejected `exec` propagates and a `null` result raises `Redis pipeline
failed` — and a failing follow-up `PEXPIRE` propagates; but an error on an
individual sub-command inside a successful exec is not checked: the call
returns normally and reports the errored reply's (absent) value as the
count. -/
theorem C7_amended_pipeline_failures_raised (ttl : Int) (msg : String)
    (r0 r1 : ExecReply) (pe : Except String Unit) :
    incrementExec ttl (.rejected msg) pe = .error msg ∧
      incrementExec ttl .nullResults pe = .error "Redis pipeline failed" ∧
      (r1.value ≠ some (-1) →
        incrementExec ttl (.ok r0 r1) pe =
          .ok ⟨r0.value, r1.value.map (fun v => max v 0)⟩) ∧
      incrementExec ttl (.ok r0 r1) (.ok ()) =
        .ok ⟨r0.value,
          if r1.value = some (-1) then some (max ttl 0)
          else r1.value.map (fun v => max v 0)⟩ ∧
      (∀ e : String, r1.value = some (-1) →
        incrementExec ttl (.ok r0 r1) (.error e) = .error e) := by
  refine ⟨rfl, rfl, ?_, ?_, ?_⟩
  · intro h
    simp [incrementExec, h]
  · by_cases h : r1.value = some (-1) <;> simp [incrementExec, h]
  · intro e h
    simp [incrementExec, h]

/-- C7 amended witness: evaluation at `ttl = 60000`, a healthy pair of
replies `[null, 1]` / `[null, -1]`, and a failing `PEXPIRE`. -/
theorem C7_amended_pipeline_failures_raised_witness :
    incrementExec 60000 (.ok ⟨none, some 1⟩ ⟨none, some 120⟩) (.ok ()) =
        .ok ⟨some 1, some 120⟩ ∧
      incrementExec 60000 (.rejected "connect ECONNREFUSED") (.ok ()) =
        .error "connect ECONNREFUSED" ∧
      incrementExec 60000 (.ok ⟨none, some 1⟩ ⟨none, some (-1)⟩)
          (.error "connection lost") =
        .error "connection lost" := by
  obtain ⟨h1, -, h3, -, h5⟩ :=
    C7_amended_pipeline_failures_raised 60000 "connect ECONNREFUSED"
      ⟨none, some 1⟩ ⟨none, some 120⟩ (.ok ())
  obtain ⟨-, -, -, -, h5'⟩ :=
    C7_amended_pipeline_failures_raised 60000 "connect ECONNREFUSED"
      ⟨none, some 1⟩ ⟨none, some (-1)⟩ (.ok ())
  exact ⟨by simpa using h3 (by decide), h1, h5' "connection lost" rfl⟩

end RedisThrottlerStorage

namespace RateLimitGuard

theorem processAll_window (rest : List Int) (k : Nat) (e : Int)
    (h : ∀ t ∈ rest, t < e) :
    processAll rest (some ⟨k, e⟩) =
      ((List.range' (k + 1) rest.length).map outcomeFor,
        some ⟨k + rest.length, e⟩) := by
  induction rest generalizing k with
  | nil => rfl
  | cons t rest ih =>
    have ht : t < e := h t (List.mem_cons_self t rest)
    have hrest : ∀ u ∈ rest, u < e := fun u hu => h u (List.mem_cons_of_mem t hu)
    simp only [processAll, handleRequest, RedisThrottlerStorage.incrementAt,
      if_pos ht]
    rw [ih (k + 1) hrest]
    simp only [List.length_cons, List.range'_succ, List.map_cons, outcomeFor]
    have harith : k + 1 + rest.length = k + (rest.length + 1) := by omega
    rw [harith]

theorem outcomeFor_split :
    (List.range' 1 101).map outcomeFor =
      (List.range' 1 100).map Outcome.allowed ++
        [Outcome.throttled throttledHeaders] := by
  rw [show (101 : Nat) = 100 + 1 from rfl, List.range'_concat, List.map_append,
    List.map_congr_left (g := Outcome.allowed)]
  · rfl
  · intro n hn
    rw [List.mem_range'_1] at hn
    simp only [outcomeFor, limit]
    rw [if_neg (by omega)]

/-- C2: for every identity, with the configured 60 s window and limit of 100,
the 101st request within the window is rejected with headers
`X-RateLimit-Limit = 100`, `X-RateLimit-Remaining = 0`, `Retry-After = 60`
while the first 100 are allowed with counts 1..100; and a request arriving
once the window has elapsed is accepted with the counter restarted at 1. -/
theorem C2_rate_limit_window (t0 t1 : Int) (rest : List Int)
    (hlen : rest.length = 100)
    (hwin : ∀ t ∈ rest, t < t0 + 60000)
    (hafter : t0 + 60000 ≤ t1) :
    (processAll (t0 :: rest) none).1 =
        (List.range' 1 100).map Outcome.allowed ++
          [Outcome.throttled throttledHeaders] ∧
      (processAll [t1] (processAll (t0 :: rest) none).2).1 =
        [Outcome.allowed 1] ∧
      (processAll [t1] (processAll (t0 :: rest) none).2).2 =
        some ⟨1, t1 + 60000⟩ := by
  have hfirst : processAll (t0 :: rest) none =
      (Outcome.allowed 1 :: (List.range' 2 rest.length).map outcomeFor,
        some ⟨1 + rest.length, t0 + 60000⟩) := by
    simp only [processAll, handleRequest, RedisThrottlerStorage.incrementAt, ttlMs]
    rw [processAll_window rest 1 (t0 + 60000) hwin]
    norm_num [limit]
  rw [hfirst, hlen]
  have houts : Outcome.allowed 1 :: (List.range' 2 100).map outcomeFor =
      (List.range' 1 101).map outcomeFor := by
    rw [List.range'_succ]
    rfl
  refine ⟨by rw [houts, outcomeFor_split], ?_, ?_⟩ <;>
    simp only [processAll, handleRequest, RedisThrottlerStorage.incrementAt, ttlMs,
      if_neg (show ¬t1 < t0 + 60000 by omega)] <;>
    norm_num [limit]

/-- C2 witness: 101 requests at time 0 from one identity, then one at 60000
ms (the window boundary). -/
theorem C2_rate_limit_window_witness :
    (processAll (0 :: List.replicate 100 0) none).1 =
        (List.range' 1 100).map Outcome.allowed ++
          [Outcome.throttled throttledHeaders] ∧
      (processAll [60000] (processAll (0 :: List.replicate 100 0) none).2).1 =
        [Outcome.allowed 1] ∧
      (processAll [60000] (processAll (0 :: List.replicate 100 0) none).2).2 =
        some ⟨1, 60000 + 60000⟩ :=
  C2_rate_limit_window 0 60000 (List.replicate 100 0) (by decide)
    (fun t ht => by
      rw [List.eq_of_mem_replicate ht]
      omega)
    (by omega)

end RateLimitGuard

/-! ### TasksService theorems -/

namespace TasksService

theorem batchStep_results_length (action : BatchAction) (st : BatchState)
    (taskId : String) :
    (batchStep action st taskId).results.length = st.results.length + 1 := by
  cases action <;> rcases h : st.db.find? (fun t => t.id == taskId) with - | task <;>
    simp [batchStep, h]

theorem batch_results_length (action : BatchAction) (taskIds : List String)
    (st : BatchState) :
    (taskIds.foldl (batchStep action) st).results.length =
      st.results.length + taskIds.length := by
  induction taskIds generalizing st with
  | nil => rfl
  | cons a ids ih =>
    simp only [List.foldl_cons, List.length_cons, ih,
      batchStep_results_length]
    omega

theorem batch_results_mono (action : BatchAction) (taskIds : List String)
    (st : BatchState) (r : ItemResult) (h : r ∈ st.results) :
    r ∈ (taskIds.foldl (batchStep action) st).results := by
  induction taskIds generalizing st with
  | nil => exact h
  | cons a ids ih =>
    refine ih _ ?_
    cases action <;>
      rcases hf : st.db.find? (fun t => t.id == a) with - | task <;>
      simp [batchStep, hf] <;> exact Or.inl h

theorem batchStep_db_ids (action : BatchAction) (st : BatchState)
    (taskId : String) (u : Task) (hu : u ∈ (batchStep action st taskId).db) :
    ∃ t ∈ st.db, u.id = t.id := by
  cases action with
  | complete =>
    rcases hf : st.db.find? (fun t => t.id == taskId) with - | task <;>
      simp only [batchStep, hf] at hu
    · exact ⟨u, hu, rfl⟩
    · simp only [save, List.mem_map] at hu
      obtain ⟨v, hv, hvu⟩ := hu
      by_cases hid : (v.id == { task with status := TaskStatus.COMPLETED }.id) = true
      · rw [if_pos hid] at hvu
        exact ⟨v, hv, by rw [← hvu]; exact (eq_of_beq hid).symm⟩
      · rw [if_neg hid] at hvu
        exact ⟨v, hv, by rw [← hvu]⟩
  | delete =>
    rcases hf : st.db.find? (fun t => t.id == taskId) with - | task <;>
      simp only [batchStep, hf] at hu
    · exact ⟨u, hu, rfl⟩
    · exact ⟨u, (List.mem_filter.mp hu).1, rfl⟩

theorem batchStep_absent (action : BatchAction) (st : BatchState)
    (taskId : String)
    (h : st.db.find? (fun t => t.id == taskId) = none) :
    batchStep action st taskId =
      { st with results := st.results ++ [notFoundResult taskId] } := by
  cases action <;> simp [batchStep, h]

theorem batch_notfound (action : BatchAction) (taskIds : List String)
    (st : BatchState) (id : String) (hid : id ∈ taskIds)
    (habs : ∀ t ∈ st.db, (t.id == id) = false) :
    notFoundResult id ∈ (taskIds.foldl (batchStep action) st).results := by
  induction taskIds generalizing st with
  | nil => cases hid
  | cons a ids ih =>
    rcases List.mem_cons.mp hid with rfl | hid'
    · have hnone : st.db.find? (fun t => t.id == id) = none :=
        List.find?_eq_none.mpr (fun t ht => by rw [habs t ht]; decide)
      rw [List.foldl_cons, batchStep_absent action st id hnone]
      exact batch_results_mono action ids _ _
        (List.mem_append_right _ (List.mem_cons_self _ _))
    · refine ih _ hid' ?_
      intro t ht
      obtain ⟨v, hv, hvt⟩ := batchStep_db_ids action st a t ht
      rw [hvt]
      exact habs v hv

theorem batchStep_delete_db (st : BatchState) (taskId : String) :
    (batchStep .delete st taskId).db =
      st.db.filter (fun t => !(t.id == taskId)) := by
  rcases hf : st.db.find? (fun t => t.id == taskId) with - | task
  · have habs := List.find?_eq_none.mp hf
    simp only [batchStep, hf]
    refine (List.filter_eq_self.mpr (fun t ht => ?_)).symm
    cases hb : (t.id == taskId) with
    | false => rfl
    | true => exact absurd hb (habs t ht)
  · simp [batchStep, hf]

theorem batch_delete_db (taskIds : List String) (st : BatchState) :
    (taskIds.foldl (batchStep .delete) st).db =
      st.db.filter (fun t => !(taskIds.contains t.id)) := by
  induction taskIds generalizing st with
  | nil =>
    simp only [List.foldl_nil]
    exact (List.filter_eq_self.mpr (fun t _ => rfl)).symm
  | cons a ids ih =>
    rw [List.foldl_cons, ih, batchStep_delete_db, List.filter_filter]
    refine List.filter_congr (fun t _ => ?_)
    rw [List.contains_cons, Bool.not_or, Bool.and_comm]

/-- C4: for every batch operation over a list of task ids, the summary
satisfies `processed = number of submitted ids` and
`successful + failed = processed`; every id absent from the datastore
produces a structured failure record carrying that id and a
`Task with ID _ not found` error instead of aborting the batch; a failed
item does not undo earlier successful items — for DELETE the final
datastore is exactly the initial one with every submitted id removed; and
on the spec's example, ids `[A, B, C]` with `B` absent under DELETE yield
`processed = 3, successful = 2, failed = 1` with the failure entry
identifying `B`. -/
theorem C4_batch_partial_failure (action : BatchAction)
    (taskIds : List String) (db : List Task) :
    (batchProcess taskIds action db).1.processed = taskIds.length ∧
      (batchProcess taskIds action db).1.successful +
          (batchProcess taskIds action db).1.failed =
        (batchProcess taskIds action db).1.processed ∧
      (taskIds.all (fun id =>
        db.any (fun t => t.id == id) ||
          (batchProcess taskIds action db).1.results.contains
            (notFoundResult id))) = true ∧
      (batchProcess taskIds .delete db).2.db =
        db.filter (fun t => !(taskIds.contains t.id)) ∧
      (batchProcess ["A", "B", "C"] .delete exampleDb).1.processed = 3 ∧
      (batchProcess ["A", "B", "C"] .delete exampleDb).1.successful = 2 ∧
      (batchProcess ["A", "B", "C"] .delete exampleDb).1.failed = 1 ∧
      (batchProcess ["A", "B", "C"] .delete exampleDb).1.results.contains
        (notFoundResult "B") = true := by
  refine ⟨rfl, ?_, ?_, ?_, by decide, by decide, by decide, by decide⟩
  · have hcount := List.length_eq_countP_add_countP
      (fun r : ItemResult => r.success)
      ((taskIds.foldl (batchStep action) ⟨db, [], [], []⟩).results)
    have hlen := batch_results_length action taskIds ⟨db, [], [], []⟩
    simp only [batchProcess, ← List.countP_eq_length_filter]
    simp only [List.length_nil, Nat.zero_add] at hlen
    rw [show (fun r : ItemResult => !r.success) =
      (fun r : ItemResult => decide ¬r.success = true) from ?_]
    · omega
    · funext r
      cases hr : r.success <;> simp [hr]
  · rw [List.all_eq_true]
    intro id hid
    cases hany : db.any (fun t => t.id == id) with
    | true => rfl
    | false =>
      have habs : ∀ t ∈ db, (t.id == id) = false := fun t ht => by
        have := List.any_eq_false.mp hany t ht
        simpa using this
      have hmem := batch_notfound action taskIds ⟨db, [], [], []⟩ id hid habs
      simp only [batchProcess, Bool.false_or]
      exact List.elem_iff.mpr hmem
  · exact batch_delete_db taskIds ⟨db, [], [], []⟩

/-- C8 counterexample: `remove` of task `A` succeeds, updates the datastore
and invalidates the task's and owner's cache keys, but enqueues NO
status-change job (`jobs = []`); `update` that does not change the status
likewise enqueues none.  This refutes the claim that every mutating request
enqueues a status-change job. -/
theorem C8_remove_enqueues_no_job :
    remove "A" [taskA] =
        Except.ok ⟨[], [], [CacheInvalidation.taskAndUser "A" "u1"]⟩ ∧
      update "A" ⟨some "New title", none, none, none, none⟩ [taskA] =
        Except.ok ⟨[{ taskA with title := "New title" }], [],
          [CacheInvalidation.taskAndUser "A" "u1"]⟩ :=
  ⟨rfl, rfl⟩

/-- C8 amended: every successful task mutation updates the datastore and
issues cache invalidations, but the status-change job is not enqueued by
every mutation: `create` always enqueues one, `update` enqueues one exactly
when the saved status differs from the original, and `remove` never
enqueues one. -/
theorem C8_amended_mutation_effects
    (users : List String) (newId id : String) (cdto : CreateTaskDto)
    (udto : UpdateTaskDto) (db : List Task) (task : Task) :
    (users.contains cdto.userId = true →
      create users newId cdto db =
        Except.ok ⟨db ++ [⟨newId, cdto.title, cdto.description, cdto.status,
            cdto.priority, cdto.dueDate, cdto.userId⟩],
          [(newId, cdto.status)], [CacheInvalidation.user cdto.userId]⟩) ∧
      (db.find? (fun t => t.id == id) = some task →
        update id udto db =
          Except.ok ⟨save (applyUpdate udto task) db,
            if task.status == (applyUpdate udto task).status then []
            else [((applyUpdate udto task).id, (applyUpdate udto task).status)],
            [CacheInvalidation.taskAndUser id task.userId]⟩) ∧
      (db.find? (fun t => t.id == id) = some task →
        remove id db =
          Except.ok ⟨db.filter (fun t => !(t.id == id)), [],
            [CacheInvalidation.taskAndUser id task.userId]⟩) := by
  refine ⟨fun h => ?_, fun h => ?_, fun h => ?_⟩
  · simp only [create, if_pos h]
  · simp [update, h]
  · simp [remove, h]

/-- C8 amended witness: a create, a status-changing update, and a remove,
each on concrete fixtures. -/
theorem C8_amended_mutation_effects_witness :
    create ["u1"] "N" ⟨"T", "", TaskStatus.PENDING, "MEDIUM", 0, "u1"⟩ [] =
        Except.ok ⟨[⟨"N", "T", "", TaskStatus.PENDING, "MEDIUM", 0, "u1"⟩],
          [("N", TaskStatus.PENDING)], [CacheInvalidation.user "u1"]⟩ ∧
      update "A" ⟨none, none, some TaskStatus.COMPLETED, none, none⟩ [taskA] =
        Except.ok ⟨[{ taskA with status := TaskStatus.COMPLETED }],
          [("A", TaskStatus.COMPLETED)],
          [CacheInvalidation.taskAndUser "A" "u1"]⟩ ∧
      remove "A" [taskA] =
        Except.ok ⟨[], [], [CacheInvalidation.taskAndUser "A" "u1"]⟩ := by
  obtain ⟨h1, -, -⟩ :=
    C8_amended_mutation_effects ["u1"] "N" "A"
      ⟨"T", "", TaskStatus.PENDING, "MEDIUM", 0, "u1"⟩
      ⟨none, none, some TaskStatus.COMPLETED, none, none⟩ [] taskA
  obtain ⟨-, h2, h3⟩ :=
    C8_amended_mutation_effects ["u1"] "N" "A"
      ⟨"T", "", TaskStatus.PENDING, "MEDIUM", 0, "u1"⟩
      ⟨none, none, some TaskStatus.COMPLETED, none, none⟩ [taskA] taskA
  exact ⟨h1 rfl, h2 rfl, h3 rfl⟩

end TasksService

/-! ### Queue consumer theorems -/

namespace TaskProcessorService

theorem effectiveAttempts_pos (attempts : Option Nat) :
    ∃ l, effectiveAttempts attempts = l + 1 := by
  rcases attempts with - | n
  · exact ⟨0, rfl⟩
  · cases n with
    | zero => exact ⟨0, rfl⟩
    | succ m => exact ⟨m, rfl⟩

theorem runAttempts_always_fails (msg : Nat → String) (attempts : Option Nat)
    (made left : Nat) :
    runAttempts (fun k => .error (msg k)) attempts made left =
      (.failedTerminal (made + left),
        (List.range' made left).flatMap (fun k =>
          [.processing (k + 1) (effectiveAttempts attempts),
           .errored (k + 1) (effectiveAttempts attempts) (msg k)] ++
            (if 0 < (effectiveAttempts attempts : Int) - (k + 1) then
              [.willRetry ((effectiveAttempts attempts : Int) - (k + 1))]
            else [.exhausted]))) := by
  induction left generalizing made with
  | zero => rfl
  | succ l ih =>
    simp only [runAttempts, processWithLogs, ih (made + 1), List.range'_succ,
      List.flatMap_cons]
    have harith : made + 1 + l = made + (l + 1) := by omega
    rw [harith]

theorem runAttempts_attemptCount_le (h : Nat → Except String ProcResult)
    (attempts : Option Nat) (made left : Nat) :
    (runAttempts h attempts made left).1.attemptCount ≤ made + left := by
  induction left generalizing made with
  | zero => exact Nat.le_refl _
  | succ l ih =>
    simp only [runAttempts]
    rcases h made with e | v
    · simp only [processWithLogs]
      have := ih (made + 1)
      omega
    · simp only [processWithLogs, JobFinal.attemptCount]
      omega

/-- C5: a job is retried only while attempts-made is strictly less than
max-attempts — the number of attempts that run never exceeds
`opts.attempts || 1` — and a handler that always fails ends terminally
failed after exactly that many attempts, never run again (with
`maxAttempts = 3`, exactly 3 runs); on every one of those failures the
consumer logs the attempt number `attemptsMade + 1` and the remaining
attempts `(opts.attempts || 1) - (attemptsMade + 1)` before re-throwing. -/
theorem C5_retry_exhaustion_and_logging (msg : Nat → String)
    (attempts : Option Nat) (h : Nat → Except String ProcResult) :
    runJob (fun k => .error (msg k)) attempts =
        (.failedTerminal (effectiveAttempts attempts),
          (List.range' 0 (effectiveAttempts attempts)).flatMap (fun k =>
            [.processing (k + 1) (effectiveAttempts attempts),
             .errored (k + 1) (effectiveAttempts attempts) (msg k)] ++
              (if 0 < (effectiveAttempts attempts : Int) - (k + 1) then
                [.willRetry ((effectiveAttempts attempts : Int) - (k + 1))]
              else [.exhausted]))) ∧
      (runJob h attempts).1.attemptCount ≤ effectiveAttempts attempts ∧
      effectiveAttempts (some 3) = 3 := by
  refine ⟨?_, ?_, rfl⟩
  · rw [runJob, runAttempts_always_fails, Nat.zero_add]
  · have := runAttempts_attemptCount_le h attempts 0 (effectiveAttempts attempts)
    simpa using this

/-- C10: a `task-status-update` job whose payload lacks a `taskId` or a
`status` resolves with `{ success: false, error: 'Missing required data' }`
without throwing, leaves the datastore untouched and never invokes
`updateStatus`; because the consumer returned normally, the job completes
on its first attempt and is never retried regardless of its remaining
attempts. -/
theorem C10_missing_data_completes_without_update
    (taskId status : Option String) (db : List Task) (attempts : Option Nat)
    (hfalsy : (isFalsy taskId || isFalsy status) = true) :
    dispatch ⟨"task-status-update", taskId, status⟩ db =
        Except.ok (⟨false, some "Missing required data", none, none, none⟩,
          db, []) ∧
      (runJob (fun _ =>
        (dispatch ⟨"task-status-update", taskId, status⟩ db).map Prod.fst)
        attempts).1 = .completed 1 := by
  have hd : dispatch ⟨"task-status-update", taskId, status⟩ db =
      Except.ok (⟨false, some "Missing required data", none, none, none⟩,
        db, []) := by
    simp [dispatch, handleStatusUpdate, hfalsy]
  refine ⟨hd, ?_⟩
  obtain ⟨l, hl⟩ := effectiveAttempts_pos attempts
  rw [runJob, hl]
  simp [runAttempts, processWithLogs, hd, Except.map]

/-- C10 witness: a payload with a status but no task id, against a
one-task datastore and 3 configured attempts. -/
theorem C10_missing_data_completes_without_update_witness :
    dispatch ⟨"task-status-update", none, some "COMPLETED"⟩
        [TasksService.taskA] =
        Except.ok (⟨false, some "Missing required data", none, none, none⟩,
          [TasksService.taskA], []) ∧
      (runJob (fun _ =>
        (dispatch ⟨"task-status-update", none, some "COMPLETED"⟩
          [TasksService.taskA]).map Prod.fst) (some 3)).1 = .completed 1 :=
  C10_missing_data_completes_without_update none (some "COMPLETED")
    [TasksService.taskA] (some 3) (by decide)

end TaskProcessorService

/-! ### Overdue scan theorems -/

theorem length_filter_add_length_filter_not {α : Type} (p : α → Bool)
    (l : List α) :
    (l.filter p).length + (l.filter (fun a => !(p a))).length = l.length := by
  rw [← List.countP_eq_length_filter, ← List.countP_eq_length_filter]
  have hc := List.length_eq_countP_add_countP p l
  rw [show (fun a => !(p a)) = (fun a => decide (¬p a = true)) from ?_]
  · omega
  · funext a
    cases ha : p a <;> simp [ha]

namespace OverdueTasksService

theorem overdue_foldl (enqueueFails : String → Bool) (l : List Task)
    (jobs : List NotificationJob) (s f : Nat) :
    l.foldl (enqueueStep enqueueFails) (jobs, s, f) =
      (jobs ++ (l.filter (fun t => !(enqueueFails t.id))).map mkNotificationJob,
        s + (l.filter (fun t => !(enqueueFails t.id))).length,
        f + (l.filter (fun t => enqueueFails t.id)).length) := by
  induction l generalizing jobs s f with
  | nil => simp
  | cons t l ih =>
    cases hf : enqueueFails t.id
    · have h1 : List.filter (fun u => !(enqueueFails u.id)) (t :: l) =
          t :: List.filter (fun u => !(enqueueFails u.id)) l :=
        List.filter_cons_of_pos (by simp [hf])
      have h2 : List.filter (fun u => enqueueFails u.id) (t :: l) =
          List.filter (fun u => enqueueFails u.id) l :=
        List.filter_cons_of_neg (by simp [hf])
      rw [List.foldl_cons,
        show enqueueStep enqueueFails (jobs, s, f) t =
          (jobs ++ [mkNotificationJob t], s + 1, f) from by simp [enqueueStep, hf],
        ih, h1, h2]
      refine Prod.ext (by simp) (Prod.ext ?_ (by simp))
      simp only [List.length_cons]
      omega
    · have h1 : List.filter (fun u => !(enqueueFails u.id)) (t :: l) =
          List.filter (fun u => !(enqueueFails u.id)) l :=
        List.filter_cons_of_neg (by simp [hf])
      have h2 : List.filter (fun u => enqueueFails u.id) (t :: l) =
          t :: List.filter (fun u => enqueueFails u.id) l :=
        List.filter_cons_of_pos (by simp [hf])
      rw [List.foldl_cons,
        show enqueueStep enqueueFails (jobs, s, f) t = (jobs, s, f + 1) from by
          simp [enqueueStep, hf],
        ih, h1, h2]
      refine Prod.ext (by simp) (Prod.ext (by simp) ?_)
      simp only [List.length_cons]
      omega

/-- C6: for every scan run, exactly the records with due-date strictly in
the past and pending status — and, among those, exactly the ones whose
enqueue does not fail — are enqueued, each as one notification job carrying
`attempts = 3`, exponential backoff with base delay 2000 ms and retention
3600 s / 86400 s; with no enqueue failures that is exactly the overdue
pending set.  An individual enqueue failure is only counted: success and
failure counts partition the overdue pending set, and the run logs the
found count and (unless the scan found nothing) the final success/failure
counts. -/
theorem C6_overdue_scan (now : Int) (db : List Task)
    (enqueueFails : String → Bool) :
    (checkOverdueTasks now db enqueueFails).enqueued =
        (db.filter (fun t => isOverduePending now t && !(enqueueFails t.id))).map
          mkNotificationJob ∧
      (checkOverdueTasks now db (fun _ => false)).enqueued =
        (db.filter (isOverduePending now)).map mkNotificationJob ∧
      (checkOverdueTasks now db enqueueFails).successCount =
        (db.filter (fun t => isOverduePending now t && !(enqueueFails t.id))).length ∧
      (checkOverdueTasks now db enqueueFails).failureCount =
        (db.filter (fun t => isOverduePending now t && enqueueFails t.id)).length ∧
      (checkOverdueTasks now db enqueueFails).successCount +
          (checkOverdueTasks now db enqueueFails).failureCount =
        (db.filter (isOverduePending now)).length ∧
      (checkOverdueTasks now db enqueueFails).loggedFound =
        (db.filter (isOverduePending now)).length ∧
      (checkOverdueTasks now db enqueueFails).finalLog =
        (if (db.filter (isOverduePending now)).isEmpty then none
          else some ((checkOverdueTasks now db enqueueFails).successCount,
            (checkOverdueTasks now db enqueueFails).failureCount)) ∧
      ((checkOverdueTasks now db enqueueFails).enqueued.all
        (fun j => j.opts == overdueJobOptions)) = true := by
  have hsplit : ∀ p : Task → Bool,
      db.filter (fun t => isOverduePending now t && p t) =
        (db.filter (isOverduePending now)).filter p := by
    intro p
    rw [List.filter_filter]
    exact List.filter_congr (fun t _ => Bool.and_comm _ _)
  have hrun : ∀ g : String → Bool,
      checkOverdueTasks now db g =
        if (db.filter (isOverduePending now)).isEmpty then
          ⟨[], 0, 0, (db.filter (isOverduePending now)).length, none⟩
        else
          ⟨((db.filter (isOverduePending now)).filter (fun t => !(g t.id))).map
              mkNotificationJob,
            ((db.filter (isOverduePending now)).filter (fun t => !(g t.id))).length,
            ((db.filter (isOverduePending now)).filter (fun t => g t.id)).length,
            (db.filter (isOverduePending now)).length,
            some
              (((db.filter (isOverduePending now)).filter (fun t => !(g t.id))).length,
                ((db.filter (isOverduePending now)).filter (fun t => g t.id)).length)⟩ := by
    intro g
    rw [checkOverdueTasks]
    cases he : (db.filter (isOverduePending now)).isEmpty with
    | true => simp [he]
    | false =>
      simp only [he, Bool.false_eq_true, if_false, overdue_foldl,
        List.nil_append, Nat.zero_add]
  cases he : (db.filter (isOverduePending now)).isEmpty with
  | true =>
    have hO : db.filter (isOverduePending now) = [] := List.isEmpty_iff.mp he
    refine ⟨?_, ?_, ?_, ?_, ?_, ?_, ?_, ?_⟩ <;>
      simp [hrun, he, hsplit, hO]
  | false =>
    have hlen := length_filter_add_length_filter_not
      (fun t : Task => !(enqueueFails t.id)) (db.filter (isOverduePending now))
    simp only [Bool.not_not] at hlen
    refine ⟨?_, ?_, ?_, ?_, ?_, ?_, ?_, ?_⟩
    · rw [hrun, hsplit]
      simp [he]
    · rw [hrun]
      simp [he]
    · rw [hrun, hsplit]
      simp [he]
    · rw [hrun, hsplit]
      simp [he]
    · rw [hrun]
      simp only [he, Bool.false_eq_true, if_false]
      exact hlen
    · rw [hrun]
      simp [he]
    · rw [hrun]
      simp [he]
    · rw [hrun]
      simp only [he, Bool.false_eq_true, if_false]
      refine List.all_eq_true.mpr (fun j hj => ?_)
      obtain ⟨t, -, rfl⟩ := List.mem_map.mp hj
      rfl

end OverdueTasksService

end TaskFlow
